import Mathlib

/-!
# Verification of the libmonero key/mnemonic pipeline

A shallow embedding of the two source revisions of the key and mnemonic
module (`src/keys/keys.rs`, the newer revision, and `src/keys.rs`, the
older one).  Strings are modelled as lists of bytes (`List Nat`), which
matches Rust's byte-based `&str` slicing; machine integers are `Nat`
with explicit wrap-arounds where they matter.  External collaborators
(the Keccak256 hash, the Monero base58 codec) are taken as function
parameters, as the design treats them as black boxes; `sc_reduce32`
(whose source lives in a crate module not present here) is modelled
from the specification as reduction modulo the Ed25519 group order.
-/

/-- Bytes of a word, written as character literals for readability. -/
def str (l : List Char) : List Nat := l.map Char.toNat

/-! ## GF(2048) field-checksum engine (`gf_elem_mul2`, `gf_poly_eval`) -/

/-- `static POLYSEED_MUL2_TABLE: [u16; 8] = [5, 7, 1, 3, 13, 15, 9, 11]`. -/
def POLYSEED_MUL2_TABLE : List Nat := [5, 7, 1, 3, 13, 15, 9, 11]

/-- `fn gf_elem_mul2(x: u16) -> u16` from `src/keys/keys.rs`.  The `% 65536`
masks model `u16` wrap-around; no wrap occurs on the field domain `x < 2048`. -/
def gf_elem_mul2 (x : Nat) : Nat :=
  if x < 1024 then 2 * x % 65536
  else (POLYSEED_MUL2_TABLE.getD (x % 8) 0 + 16 * ((x - 1024) / 8)) % 65536

/-- The loop body of `gf_poly_eval`, processing the remaining coefficients
from `coeff[14]` down to `coeff[0]` with accumulator `r`. -/
def hornerRev (r : Nat) : List Nat → Nat
  | [] => r
  | c :: cs => hornerRev (gf_elem_mul2 r ^^^ c) cs

/-- `fn gf_poly_eval(coeff: &[u16; 16]) -> u16`: Horner evaluation starting
from `coeff[15]`, folding in `coeff[14], …, coeff[0]`.  The fixed-size array is
modelled as a list; reversing puts `coeff[15]` first. -/
def gf_poly_eval (coeff : List Nat) : Nat :=
  match coeff.reverse with
  | [] => 0
  | c :: cs => hornerRev c cs

/-- Specification-side operation for claim C8: the GF(2)-polynomial product of
`x` by the field's generator `X` (a left shift), reduced modulo the irreducible
polynomial `X^11 + X^2 + 1` (bitmask `2053 = 2^11 + 2^2 + 1`).  One xor step
performs the reduction because the product of an element of degree `< 11` by
`X` has degree at most `11`. -/
def gfGenMulSpec (x : Nat) : Nat :=
  if 2 * x < 2048 then 2 * x else (2 * x) ^^^ 2053

/-- Left inverse of `gf_elem_mul2` on the field domain (division by the
generator): even values halve, odd values came from the reducing branch. -/
def gfMul2Inv (y : Nat) : Nat :=
  if y % 2 = 1 then 1024 + (y ^^^ 5) / 2 else y / 2

/-! ## Errors

Panic messages of the two revisions, as caller-visible error values. -/

/-- The panics of the two source revisions, one constructor per distinct
failure site. -/
inductive KeyError where
  /-- "Wordset could not be found for given seed" -/
  | wordsetNotFound
  /-- newer revision: "Something went wrong ..." when `trunc_words` is empty -/
  | emptyTruncWords
  /-- "Invalid word in seed" -/
  | unknownWord
  /-- the `x % wordset_len != w1` self-consistency panic -/
  | codecConsistency
  /-- out-of-bounds `mnemonic_seed[i + 1]` / `[i + 2]` when the data-word
  count is not a multiple of 3 -/
  | indexOutOfBounds
  /-- older revision: "You have entered too few words" -/
  | invalidWordCount
  /-- older revision: "You seem to be missing the last word" -/
  | missingLastWord
  /-- older revision: "Your seed could not be verified via the last word
  checksum" -/
  | checksumMismatch
  /-- older revision `swap_endian_4_byte`: "Invalid length of string" -/
  | invalidStringLength
  /-- `hex::decode(..).unwrap()` on a non-hex string -/
  | invalidHexString
  /-- `copy_from_slice` / `hash[..4]` length panic -/
  | sliceLengthMismatch
  /-- `derive_priv_keys`: "Invalid hex seed" -/
  | invalidHexSeed
  /-- `derive_address`: "Invalid network" -/
  | invalidNetwork
deriving DecidableEq, Repr

/-! ## Wordsets

`WORDSETSORIGINAL` itself (module `crate::mnemonics`) is not part of the
sources here, so the registry is a parameter throughout; per the data model a
wordset is a name, a prefix length, and an ordered word list. -/

/-- `struct WordsetOriginal { name, prefix_len, words }`.  Words are byte
strings; the fixed-size `[&str; 1626]` array is modelled as a list. -/
structure Wordset where
  name : List Nat
  prefix_len : Nat
  words : List (List Nat)
deriving DecidableEq, Repr

/-! ## CRC32 and the checksum index -/

/-- One reflected CRC-32 (IEEE 802.3) bit step, polynomial `0xEDB88320`,
as computed by the `crc32fast` crate. -/
def crc32_step (c : Nat) : Nat :=
  if c % 2 = 1 then c / 2 ^^^ 0xEDB88320 else c / 2

/-- Fold one byte into the CRC state: xor it in, then eight bit steps. -/
def crc32_byte (c b : Nat) : Nat :=
  crc32_step (crc32_step (crc32_step (crc32_step
    (crc32_step (crc32_step (crc32_step (crc32_step (c ^^^ b))))))))

/-- CRC-32 of a byte string (`crc32fast::Hasher::new/update/finalize`). -/
def crc32 (bytes : List Nat) : Nat :=
  bytes.foldl crc32_byte 0xFFFFFFFF ^^^ 0xFFFFFFFF

/-- `fn get_checksum_index(array: &[&str], prefix_length: usize) -> usize`:
concatenate the first `prefix_length` bytes of every word, CRC-32 the result,
reduce modulo the word count.  (`&word[0..prefix_length]` requires every word
to have at least `prefix_length` bytes in Rust; `List.take` is total.) -/
def get_checksum_index (array : List (List Nat)) (prefix_length : Nat) : Nat :=
  let trimmed_words := array.foldl (fun acc w => acc ++ w.take prefix_length) []
  crc32 trimmed_words % array.length

/-! ## Hex rendering and endianness swap -/

/-- Lower-case hex digit of a nibble, as a byte (`0-9a-f`). -/
def hexDigitChar (d : Nat) : Nat := if d < 10 then 48 + d else 87 + d

/-- Minimal big-endian hex rendering of `x`, fuelled (fuel 16 covers `u64`).
Returns `[]` for `0`; padding is applied by `format_08x`. -/
def toHexCore : Nat → Nat → List Nat
  | 0, _ => []
  | fuel + 1, x =>
    if x = 0 then [] else toHexCore fuel (x / 16) ++ [hexDigitChar (x % 16)]

/-- `format!("{:08x}", x)` for a `usize` value: big-endian lower-case hex,
zero-padded on the left to at least 8 digits (never truncated). -/
def format_08x (x : Nat) : List Nat :=
  List.replicate (8 - (toHexCore 16 x).length) 48 ++ toHexCore 16 x

/-- Fixed-width big-endian hex rendering (`k` digits), for reasoning about
`format_08x`. -/
def hexDigitsFix : Nat → Nat → List Nat
  | 0, _ => []
  | k + 1, x => hexDigitsFix k (x / 16) ++ [hexDigitChar (x % 16)]

/-- `fn swap_endian_4_byte(s: &str) -> String` (newer revision):
`s[6..8] ++ s[4..6] ++ s[2..4] ++ s[0..2]`.  Rust's byte slicing panics when
`s` has fewer than 8 bytes; every call site passes a `{:08x}` rendering, which
has at least 8. -/
def swap_endian_4_byte (s : List Nat) : List Nat :=
  (s.drop 6).take 2 ++ (s.drop 4).take 2 ++ (s.drop 2).take 2 ++ s.take 2

/-! ## Mnemonic decoding, newer revision (`src/keys/keys.rs`) -/

/-- The triplet value
`x = w1 + L*((L - w1 + w2) % L) + L*L*((L - w2 + w3) % L)`
computed by both revisions of `derive_hex_seed` (the older revision computes
it in `isize` arithmetic, but all intermediate values are nonnegative there,
so the value agrees). -/
def triplet_val (L w1 w2 w3 : Nat) : Nat :=
  w1 + L * ((L - w1 + w2) % L) + L * L * ((L - w2 + w3) % L)

/-- Word-to-index resolution of one mnemonic word inside the triplet loop of
the newer `derive_hex_seed`: exact `position` when `prefix_len == 0`,
otherwise the first truncated word starting with the word's first
`prefix_len` bytes. -/
def word_index (ws : Wordset) (trunc_words : List (List Nat))
    (w : List Nat) : Option Nat :=
  if ws.prefix_len = 0 then ws.words.findIdx? (fun x => x == w)
  else trunc_words.findIdx? (fun x => (w.take ws.prefix_len).isPrefixOf x)

/-- The `for i in (0..mnemonic_seed.len()).step_by(3)` loop of the newer
`derive_hex_seed`: resolve three word indices (panicking on an unknown word),
compute `x`, check `x % wordset_len == w1`, and append the byte-swapped
`{:08x}` rendering.  A trailing group of 1 or 2 words makes the Rust code
index out of bounds. -/
def derive_triplets (ws : Wordset) (trunc_words : List (List Nat)) :
    List (List Nat) → Except KeyError (List Nat)
  | [] => .ok []
  | w1 :: w2 :: w3 :: rest =>
    match word_index ws trunc_words w1, word_index ws trunc_words w2,
        word_index ws trunc_words w3 with
    | some i1, some i2, some i3 =>
      let x := triplet_val ws.words.length i1 i2 i3
      if x % ws.words.length ≠ i1 then .error .codecConsistency
      else
        match derive_triplets ws trunc_words rest with
        | .ok tail => .ok (swap_endian_4_byte (format_08x x) ++ tail)
        | .error e => .error e
    | _, _, _ => .error .unknownWord
  | _ => .error .indexOutOfBounds

/-- The placeholder `WordsetOriginal { name: "x", prefix_len: 0,
words: [""; 1626] }` that the newer `derive_hex_seed` starts from. -/
def dummy_wordset : Wordset :=
  ⟨str ['x'], 0, List.replicate 1626 []⟩

/-- The wordset-resolution loop of the newer `derive_hex_seed`: the first
wordset whose word list contains every mnemonic word verbatim, else the
placeholder. -/
def find_wordset (reg : List Wordset) (mnemonic_seed : List (List Nat)) :
    Wordset :=
  match reg.find? (fun ws => mnemonic_seed.all (fun w => ws.words.contains w)) with
  | some ws => ws
  | none => dummy_wordset

/-- `pub fn derive_hex_seed(mut mnemonic_seed: Vec<String>) -> String` of the
newer revision `src/keys/keys.rs`, over an explicit wordset registry:
resolve the wordset (panic if the placeholder is left), pop the last word if
`prefix_len > 0`, build the truncated word list, then decode the triplets. -/
def derive_hex_seed (reg : List Wordset) (mnemonic_seed : List (List Nat)) :
    Except KeyError (List Nat) :=
  let the_wordset := find_wordset reg mnemonic_seed
  if the_wordset.name = str ['x'] then .error .wordsetNotFound
  else
    let mn := if 0 < the_wordset.prefix_len then mnemonic_seed.dropLast
      else mnemonic_seed
    let trunc_words := the_wordset.words.map (fun w => w.take the_wordset.prefix_len)
    if trunc_words.isEmpty then .error .emptyTruncWords
    else derive_triplets the_wordset trunc_words mn

/-! ## Mnemonic decoding, older revision (`src/keys.rs`) -/

/-- `fn find_index(array: &[&str], word: &str) -> isize`; the `-1` sentinel is
modelled as `none`. -/
def find_index (array : List (List Nat)) (word : List Nat) : Option Nat :=
  array.findIdx? (fun x => x == word)

/-- The wordset-resolution loop of the older `derive_hex_seed`: the loop never
breaks out of the outer iteration, so the *last* wordset sharing at least one
word with the mnemonic wins; the placeholder is named `"invalid"`. -/
def find_wordset_old (reg : List Wordset) (mnemonic_seed : List (List Nat)) :
    Wordset :=
  reg.foldl
    (fun acc ws =>
      if ws.words.any (fun w => mnemonic_seed.contains w) then ws else acc)
    ⟨str ['i', 'n', 'v', 'a', 'l', 'i', 'd'], 0, List.replicate 1626 []⟩

/-- The triplet loop of the older `derive_hex_seed`: `find_index` lookups
(exact equality, against `trunc_words` when `prefix_len > 0`), the same `x`
and consistency check, and the older `swap_endian_4_byte`, which panics when
the rendering is not exactly 8 bytes long. -/
def derive_triplets_old (ws : Wordset) (trunc_words : List (List Nat)) :
    List (List Nat) → Except KeyError (List Nat)
  | [] => .ok []
  | w1 :: w2 :: w3 :: rest =>
    match
      (if ws.prefix_len = 0 then find_index ws.words w1
       else find_index trunc_words (w1.take ws.prefix_len)),
      (if ws.prefix_len = 0 then find_index ws.words w2
       else find_index trunc_words (w2.take ws.prefix_len)),
      (if ws.prefix_len = 0 then find_index ws.words w3
       else find_index trunc_words (w3.take ws.prefix_len)) with
    | some i1, some i2, some i3 =>
      let x := triplet_val ws.words.length i1 i2 i3
      if x % ws.words.length ≠ i1 then .error .codecConsistency
      else if (format_08x x).length ≠ 8 then .error .invalidStringLength
      else
        match derive_triplets_old ws trunc_words rest with
        | .ok tail => .ok (swap_endian_4_byte (format_08x x) ++ tail)
        | .error e => .error e
    | _, _, _ => .error .unknownWord
  | _ => .error .indexOutOfBounds

/-- `pub fn derive_hex_seed(mut mnemonic_seed: Vec<&str>) -> String` of the
older revision `src/keys.rs`: resolution, word-count validation, checksum-word
pop, triplet decoding, and finally the CRC32 checksum verification (the data
word at the recomputed index must share its first `prefix_len` bytes with the
popped checksum word, else the "could not be verified" panic). -/
def derive_hex_seed_old (reg : List Wordset)
    (mnemonic_seed : List (List Nat)) : Except KeyError (List Nat) :=
  let ws := find_wordset_old reg mnemonic_seed
  if ws.name = str ['i', 'n', 'v', 'a', 'l', 'i', 'd'] then
    .error .wordsetNotFound
  else if (ws.prefix_len = 0 ∧ mnemonic_seed.length % 3 ≠ 0) ∨
      (0 < ws.prefix_len ∧ mnemonic_seed.length % 3 = 2) then
    .error .invalidWordCount
  else if 0 < ws.prefix_len ∧ mnemonic_seed.length % 3 = 0 then
    .error .missingLastWord
  else
    let checksum_word :=
      if 0 < ws.prefix_len then mnemonic_seed.getLastD [] else []
    let mn := if 0 < ws.prefix_len then mnemonic_seed.dropLast
      else mnemonic_seed
    let trunc_words :=
      if 0 < ws.prefix_len then ws.words.map (fun w => w.take ws.prefix_len)
      else []
    match derive_triplets_old ws trunc_words mn with
    | .error e => .error e
    | .ok hex_seed =>
      if 0 < ws.prefix_len then
        let index := get_checksum_index mn ws.prefix_len
        let expected_checksum_word := mn.getD index []
        if expected_checksum_word.take ws.prefix_len ≠
            checksum_word.take ws.prefix_len then
          .error .checksumMismatch
        else .ok hex_seed
      else .ok hex_seed

/-- Specification-side wordset resolution for claim C4, following §4.1 of the
design: a wordset matches when *every* mnemonic word matches — the full word
when `prefix_len = 0`, otherwise some word agreeing on the first `prefix_len`
bytes with the given word's truncated form. -/
def find_wordset_spec (reg : List Wordset) (mnemonic_seed : List (List Nat)) :
    Option Wordset :=
  reg.find? (fun ws =>
    mnemonic_seed.all (fun w =>
      if ws.prefix_len = 0 then ws.words.contains w
      else ws.words.any (fun v =>
        v.take ws.prefix_len == w.take ws.prefix_len)))

/-! ## Key derivation chain -/

/-- Little-endian value of a byte string. -/
def le_val (bs : List Nat) : Nat := bs.foldr (fun b acc => b + 256 * acc) 0

/-- The 32 little-endian bytes of `n` (mod `2^256`). -/
def le_bytes_32 (n : Nat) : List Nat :=
  (List.range 32).map (fun i => n / 256 ^ i % 256)

/-- The order of the prime-order subgroup of Ed25519. -/
def ed25519_order : Nat := 2 ^ 252 + 27742317777372353535851937790883648493

/-- Modelled from the spec: `crate::crypt::ed25519::sc_reduce32` is not among
the sources here; per §4.5/glossary ("Scalar reduction") it maps an arbitrary
32-byte little-endian value into `[0, group order)`. -/
def sc_reduce32 (bs : List Nat) : List Nat :=
  le_bytes_32 (le_val bs % ed25519_order)

/-- Value of one hex-digit byte (`hex::decode` accepts `0-9`, `a-f`, `A-F`). -/
def hexDigitVal (c : Nat) : Option Nat :=
  if 48 ≤ c ∧ c ≤ 57 then some (c - 48)
  else if 97 ≤ c ∧ c ≤ 102 then some (c - 87)
  else if 65 ≤ c ∧ c ≤ 70 then some (c - 55)
  else none

/-- `hex::decode`: pairs of hex digits to bytes; odd length or a stray
character fails. -/
def hex_decode : List Nat → Option (List Nat)
  | [] => some []
  | c1 :: c2 :: rest =>
    match hexDigitVal c1, hexDigitVal c2, hex_decode rest with
    | some h, some l, some bs => some ((16 * h + l) :: bs)
    | _, _, _ => none
  | _ => none

/-- The `format!("{:02x}", byte)` encoding loops of the key-derivation
functions: each byte renders as exactly two lower-case hex digits. -/
def bytes_to_hex (bs : List Nat) : List Nat :=
  bs.foldr (fun b acc => hexDigitChar (b / 16) :: hexDigitChar (b % 16) :: acc) []

/-- `fn derive_original_priv_keys(hex_seed: String) -> Vec<String>`
(parameterised by the black-box Keccak256): decode the hex seed, reduce to the
spend key, hex-encode, re-decode, hash once, reduce to the view key. -/
def derive_original_priv_keys (keccak : List Nat → List Nat)
    (hex_seed : List Nat) : Except KeyError (List (List Nat)) :=
  match hex_decode hex_seed with
  | none => .error .invalidHexString
  | some hex_bytes =>
    if hex_bytes.length ≠ 32 then .error .sliceLengthMismatch
    else
      let priv_spend_key := bytes_to_hex (sc_reduce32 hex_bytes)
      match hex_decode priv_spend_key with
      | none => .error .invalidHexString
      | some priv_spend_key_bytes =>
        let priv_view_key_bytes := keccak priv_spend_key_bytes
        if priv_view_key_bytes.length ≠ 32 then .error .sliceLengthMismatch
        else .ok [priv_spend_key, bytes_to_hex (sc_reduce32 priv_view_key_bytes)]

/-- `fn derive_mymonero_priv_keys(hex_seed: String) -> Vec<String>`: hash the
seed bytes once and reduce for the spend key; hash the seed bytes, hash the
digest again, and reduce for the view key. -/
def derive_mymonero_priv_keys (keccak : List Nat → List Nat)
    (hex_seed : List Nat) : Except KeyError (List (List Nat)) :=
  match hex_decode hex_seed with
  | none => .error .invalidHexString
  | some hex_bytes =>
    let priv_spend_key_bytes := keccak hex_bytes
    if priv_spend_key_bytes.length ≠ 32 then .error .sliceLengthMismatch
    else
      let priv_spend_key := bytes_to_hex (sc_reduce32 priv_spend_key_bytes)
      let priv_view_key_bytes := keccak hex_bytes
      if priv_view_key_bytes.length ≠ 32 then .error .sliceLengthMismatch
      else
        let priv_view_key_bytes2 := keccak priv_view_key_bytes
        if priv_view_key_bytes2.length ≠ 32 then .error .sliceLengthMismatch
        else .ok [priv_spend_key, bytes_to_hex (sc_reduce32 priv_view_key_bytes2)]

/-- `pub fn derive_priv_keys(hex_seed: String) -> Vec<String>`: dispatch on
the hex-seed length, 32 characters to the MyMonero variant, 64 to the
original, anything else panics. -/
def derive_priv_keys (keccak : List Nat → List Nat) (hex_seed : List Nat) :
    Except KeyError (List (List Nat)) :=
  if hex_seed.length = 32 then derive_mymonero_priv_keys keccak hex_seed
  else if hex_seed.length = 64 then derive_original_priv_keys keccak hex_seed
  else .error .invalidHexSeed

/-- `pub fn derive_priv_vk_from_priv_sk(private_spend_key: String) -> String`:
decode, hash once, reduce, encode. -/
def derive_priv_vk_from_priv_sk (keccak : List Nat → List Nat)
    (private_spend_key : List Nat) : Except KeyError (List Nat) :=
  match hex_decode private_spend_key with
  | none => .error .invalidHexString
  | some priv_spend_key_bytes =>
    let priv_view_key_bytes := keccak priv_spend_key_bytes
    if priv_view_key_bytes.length ≠ 32 then .error .sliceLengthMismatch
    else .ok (bytes_to_hex (sc_reduce32 priv_view_key_bytes))

/-- `pub fn derive_address(public_spend_key, public_view_key, network)`
(parameterised by the black-box Keccak256 and Monero base58 encoder):
network byte `0x12` for `0`, `0x35` for `1`, panic otherwise; base58-encode
`network_byte ‖ spend ‖ view ‖ first 4 bytes of the Keccak256 hash`. -/
def derive_address (keccak : List Nat → List Nat)
    (b58 : List Nat → List Nat) (public_spend_key public_view_key : List Nat)
    (network : Nat) : Except KeyError (List Nat) :=
  match (match network with
    | 0 => some 0x12
    | 1 => some 0x35
    | _ => none) with
  | none => .error .invalidNetwork
  | some network_byte =>
    match hex_decode public_spend_key, hex_decode public_view_key with
    | some pub_sk_bytes, some pub_vk_bytes =>
      let data := network_byte :: (pub_sk_bytes ++ pub_vk_bytes)
      let hash := keccak data
      if hash.length < 4 then .error .sliceLengthMismatch
      else .ok (b58 (data ++ hash.take 4))
    | _, _ => .error .invalidHexString

/-! ## Concrete demonstration data -/

/-- A small prefix-length-3 wordset used for concrete runs of the decoder. -/
def demo_wordset : Wordset :=
  ⟨str ['a', 'b', 'c'], 3,
   [str ['a', 'p', 'p', 'l', 'e'],
    str ['b', 'a', 'n', 'a', 'n', 'a'],
    str ['c', 'h', 'e', 'r', 'r', 'y'],
    str ['d', 'a', 'm', 's', 'o', 'n']]⟩

/-- Registry holding only `demo_wordset`. -/
def demo_registry : List Wordset := [demo_wordset]

/-- A 3-data-word mnemonic whose trailing checksum word (`damson`) is wrong
(tampered): the CRC32 checksum index over `apple banana cherry` selects one of
those three words, none of which starts with `dam`. -/
def tampered_mnemonic : List (List Nat) :=
  [str ['a', 'p', 'p', 'l', 'e'],
   str ['b', 'a', 'n', 'a', 'n', 'a'],
   str ['c', 'h', 'e', 'r', 'r', 'y'],
   str ['d', 'a', 'm', 's', 'o', 'n']]

/-- A truncated-form mnemonic (first 3 bytes of each word of
`demo_wordset`), used for claim C4. -/
def truncated_mnemonic : List (List Nat) :=
  [str ['a', 'p', 'p'], str ['b', 'a', 'n'], str ['c', 'h', 'e']]

/-- `mk_word i`: the 3-letter base-26 rendering of `i`, giving 1626 distinct
lower-case words for the full-size demonstration wordset. -/
def mk_word (i : Nat) : List Nat := [97 + i / 676, 97 + i / 26 % 26, 97 + i % 26]

/-- A full-size (1626-word) wordset with `prefix_len = 0`, exercising the
decoder at the real wordset length. -/
def big_wordset : Wordset := ⟨str ['b', 'i', 'g'], 0, (List.range 1626).map mk_word⟩

/-- The data-word triplet with indices `(1625, 1624, 1623)` in `big_wordset`,
whose triplet value exceeds `2^32`. -/
def big_mnemonic : List (List Nat) := [mk_word 1625, mk_word 1624, mk_word 1623]

/-- A stand-in for the black-box Keccak256 in witnesses: constant 32 zero
bytes. -/
def demo_keccak : List Nat → List Nat := fun _ => List.replicate 32 0

/-- A stand-in for the black-box base58 encoder in witnesses. -/
def demo_b58 : List Nat → List Nat := fun bs => bs

/-- Coefficient arrays for the claim C9 witness: all zeros, and the same with
position 3 replaced by 5. -/
def demo_poly_a : List Nat := [0, 0, 0, 0, 0, 0, 0, 0, 0, 0, 0, 0, 0, 0, 0, 0]

/-- See `demo_poly_a`. -/
def demo_poly_b : List Nat := [0, 0, 0, 5, 0, 0, 0, 0, 0, 0, 0, 0, 0, 0, 0, 0]

deriving instance DecidableEq for Except

/-! ## Theorems -/

/-! ### GF(2048) helper lemmas -/

theorem xor_lt_2048 {x y : Nat} (hx : x < 2048) (hy : y < 2048) :
    x ^^^ y < 2048 := by
  have h : x ^^^ y < 2 ^ 11 :=
    Nat.bitwise_lt (f := bne) (by norm_num at hx ⊢; exact hx)
      (by norm_num at hy ⊢; exact hy)
  norm_num at h
  exact h

set_option maxRecDepth 4000 in
theorem gf_elem_mul2_lt : ∀ x, x < 2048 → gf_elem_mul2 x < 2048 := by
  have h : ∀ k, k < 8 → ∀ r, r < 256 → gf_elem_mul2 (256 * k + r) < 2048 := by
    decide
  intro x hx
  have hx' := h (x / 256) (by omega) (x % 256) (by omega)
  rwa [Nat.div_add_mod] at hx'

set_option maxRecDepth 4000 in
theorem gfMul2Inv_gf_elem_mul2 : ∀ x, x < 2048 →
    gfMul2Inv (gf_elem_mul2 x) = x := by
  have h : ∀ k, k < 8 → ∀ r, r < 256 →
      gfMul2Inv (gf_elem_mul2 (256 * k + r)) = 256 * k + r := by
    decide
  intro x hx
  have hx' := h (x / 256) (by omega) (x % 256) (by omega)
  rwa [Nat.div_add_mod] at hx'

theorem gf_elem_mul2_inj {a b : Nat} (ha : a < 2048) (hb : b < 2048)
    (h : gf_elem_mul2 a = gf_elem_mul2 b) : a = b := by
  have h1 := gfMul2Inv_gf_elem_mul2 a ha
  have h2 := gfMul2Inv_gf_elem_mul2 b hb
  rw [← h1, ← h2, h]

theorem hornerRev_lt : ∀ (l : List Nat) (r : Nat), r < 2048 →
    (∀ c ∈ l, c < 2048) → hornerRev r l < 2048 := by
  intro l
  induction l with
  | nil => intro r hr _; exact hr
  | cons c cs ih =>
    intro r hr hl
    exact ih _ (xor_lt_2048 (gf_elem_mul2_lt r hr) (hl c (by simp)))
      (fun d hd => hl d (by simp [hd]))

theorem hornerRev_ne : ∀ (l : List Nat) (r1 r2 : Nat), r1 < 2048 → r2 < 2048 →
    (∀ c ∈ l, c < 2048) → r1 ≠ r2 → hornerRev r1 l ≠ hornerRev r2 l := by
  intro l
  induction l with
  | nil => intro r1 r2 _ _ _ hne; exact hne
  | cons c cs ih =>
    intro r1 r2 h1 h2 hl hne
    have hc : c < 2048 := hl c (by simp)
    refine ih _ _ (xor_lt_2048 (gf_elem_mul2_lt r1 h1) hc)
      (xor_lt_2048 (gf_elem_mul2_lt r2 h2) hc)
      (fun d hd => hl d (by simp [hd])) ?_
    intro heq
    exact hne (gf_elem_mul2_inj h1 h2 (Nat.xor_left_inj.mp heq))

theorem hornerRev_append : ∀ (p s : List Nat) (r : Nat),
    hornerRev r (p ++ s) = hornerRev (hornerRev r p) s := by
  intro p
  induction p with
  | nil => intro s r; rfl
  | cons c cs ih =>
    intro s r
    simp only [List.cons_append, hornerRev]
    exact ih s (gf_elem_mul2 r ^^^ c)

theorem eq_of_getD : ∀ (a b : List Nat), a.length = b.length →
    (∀ i, i < a.length → a.getD i 0 = b.getD i 0) → a = b := by
  intro a
  induction a with
  | nil =>
    intro b hlen _
    exact (List.eq_nil_of_length_eq_zero hlen.symm).symm
  | cons x xs ih =>
    intro b hlen hget
    cases b with
    | nil => simp at hlen
    | cons y ys =>
      have h0 := hget 0 (by simp)
      simp only [List.getD_cons_zero] at h0
      subst h0
      have : xs = ys := by
        refine ih ys (by simpa using hlen) ?_
        intro i hi
        have := hget (i + 1) (by simpa using Nat.succ_lt_succ hi)
        simpa using this
      rw [this]

theorem diff_one_decomp : ∀ (a b : List Nat) (j : Nat), a.length = b.length →
    j < a.length → a.getD j 0 ≠ b.getD j 0 →
    (∀ i, i < a.length → i ≠ j → a.getD i 0 = b.getD i 0) →
    ∃ p x y s, x ≠ y ∧ a = p ++ x :: s ∧ b = p ++ y :: s := by
  intro a
  induction a with
  | nil => intro b j _ hj _ _; simp at hj
  | cons c cs ih =>
    intro b j hlen hj hne hagree
    cases b with
    | nil => simp at hlen
    | cons d ds =>
      cases j with
      | zero =>
        refine ⟨[], c, d, cs, by simpa using hne, by simp, ?_⟩
        have : cs = ds := by
          refine eq_of_getD cs ds (by simpa using hlen) ?_
          intro i hi
          have := hagree (i + 1) (by simpa using Nat.succ_lt_succ hi)
            (by omega)
          simpa using this
        simp [this]
      | succ j' =>
        have hcd : c = d := by simpa using hagree 0 (by simp) (by omega)
        obtain ⟨p, x, y, s, hxy, h1, h2⟩ :=
          ih ds j' (by simpa using hlen) (by simpa using hj)
            (by simpa using hne)
            (fun i hi hij => by
              have := hagree (i + 1) (by simpa using Nat.succ_lt_succ hi)
                (by omega)
              simpa using this)
        exact ⟨c :: p, x, y, s, hxy, by simp [h1], by simp [hcd, h2]⟩

/-- Claim C9: `gf_poly_eval` (the Horner evaluation at the generator, folding
`gf_elem_mul2` then xor from `coeff[15]` down to `coeff[0]`) detects every
single-word substitution: two arrays of 16 field elements that differ in
exactly one position have different checksums. -/
theorem C9_gf_poly_eval_detects : ∀ (a b : List Nat) (j : Nat),
    a.length = 16 → b.length = 16 →
    (∀ c ∈ a, c < 2048) → (∀ c ∈ b, c < 2048) →
    j < 16 → a.getD j 0 ≠ b.getD j 0 →
    (∀ i, i < 16 → i ≠ j → a.getD i 0 = b.getD i 0) →
    gf_poly_eval a ≠ gf_poly_eval b := by
  intro a b j ha hb hba hbb hj hne hagree
  obtain ⟨p, x, y, s, hxy, rfl, rfl⟩ :=
    diff_one_decomp a b j (by omega) (by omega) hne
      (fun i hi hij => hagree i (by omega) hij)
  have hxlt : x < 2048 := hba x (by simp)
  have hylt : y < 2048 := hbb y (by simp)
  have hplt : ∀ c ∈ p.reverse, c < 2048 := by
    intro c hc
    exact hba c (by simp at hc; simp [hc])
  rcases hs : s.reverse with _ | ⟨h0, t⟩
  · have e1 : gf_poly_eval (p ++ x :: s) = hornerRev x p.reverse := by
      simp [gf_poly_eval, hs]
    have e2 : gf_poly_eval (p ++ y :: s) = hornerRev y p.reverse := by
      simp [gf_poly_eval, hs]
    rw [e1, e2]
    exact hornerRev_ne p.reverse x y hxlt hylt hplt hxy
  · have hh0 : h0 < 2048 := by
      have : h0 ∈ s := by
        rw [← List.mem_reverse, hs]; simp
      exact hba h0 (by simp [this])
    have htlt : ∀ c ∈ t, c < 2048 := by
      intro c hc
      have : c ∈ s := by
        rw [← List.mem_reverse, hs]; simp [hc]
      exact hba c (by simp [this])
    have e1 : gf_poly_eval (p ++ x :: s) =
        hornerRev h0 (t ++ x :: p.reverse) := by
      simp [gf_poly_eval, hs]
    have e2 : gf_poly_eval (p ++ y :: s) =
        hornerRev h0 (t ++ y :: p.reverse) := by
      simp [gf_poly_eval, hs]
    rw [e1, e2, hornerRev_append, hornerRev_append]
    have hH : hornerRev h0 t < 2048 := hornerRev_lt t h0 hh0 htlt
    show hornerRev (gf_elem_mul2 (hornerRev h0 t) ^^^ x) p.reverse ≠
      hornerRev (gf_elem_mul2 (hornerRev h0 t) ^^^ y) p.reverse
    refine hornerRev_ne p.reverse _ _
      (xor_lt_2048 (gf_elem_mul2_lt _ hH) hxlt)
      (xor_lt_2048 (gf_elem_mul2_lt _ hH) hylt) hplt ?_
    intro heq
    exact hxy (Nat.xor_right_inj.mp heq)

/-- Concrete instance of claim C9's theorem: all-zero coefficients versus the
same array with `5` at position 3 give different checksums. -/
theorem C9_gf_poly_eval_detects_witness :
    demo_poly_a.getD 3 0 ≠ demo_poly_b.getD 3 0 ∧
    gf_poly_eval demo_poly_a ≠ gf_poly_eval demo_poly_b :=
  ⟨by decide,
   C9_gf_poly_eval_detects demo_poly_a demo_poly_b 3 (by decide) (by decide)
     (by decide) (by decide) (by decide) (by decide) (by decide)⟩

set_option maxRecDepth 4000 in
/-- Claim C8: on the field domain, `gf_elem_mul2` follows the two published
branch formulas, stays below 2048, and is the GF(2)-polynomial product by the
generator reduced modulo `X^11 + X^2 + 1`. -/
theorem C8_gf_elem_mul2 : ∀ x, x < 2048 →
    gf_elem_mul2 x = gfGenMulSpec x ∧
    gf_elem_mul2 x < 2048 ∧
    (x < 1024 → gf_elem_mul2 x = 2 * x) ∧
    (1024 ≤ x → gf_elem_mul2 x =
      POLYSEED_MUL2_TABLE.getD (x % 8) 0 + 16 * ((x - 1024) / 8)) := by
  have h : ∀ k, k < 8 → ∀ r, r < 256 →
      gf_elem_mul2 (256 * k + r) = gfGenMulSpec (256 * k + r) ∧
      gf_elem_mul2 (256 * k + r) < 2048 ∧
      (256 * k + r < 1024 → gf_elem_mul2 (256 * k + r) = 2 * (256 * k + r)) ∧
      (1024 ≤ 256 * k + r → gf_elem_mul2 (256 * k + r) =
        POLYSEED_MUL2_TABLE.getD ((256 * k + r) % 8) 0 +
          16 * ((256 * k + r - 1024) / 8)) := by
    decide
  intro x hx
  have hx' := h (x / 256) (by omega) (x % 256) (by omega)
  rwa [Nat.div_add_mod] at hx'

/-- Concrete instance of claim C8's theorem at `x = 1500`. -/
theorem C8_gf_elem_mul2_witness :
    (1500 : Nat) < 2048 ∧
    (gf_elem_mul2 1500 = gfGenMulSpec 1500 ∧
     gf_elem_mul2 1500 < 2048 ∧
     ((1500 : Nat) < 1024 → gf_elem_mul2 1500 = 2 * 1500) ∧
     ((1024 : Nat) ≤ 1500 → gf_elem_mul2 1500 =
       POLYSEED_MUL2_TABLE.getD (1500 % 8) 0 + 16 * ((1500 - 1024) / 8))) :=
  ⟨by decide, C8_gf_elem_mul2 1500 (by decide)⟩

/-! ### Hex codec helper lemmas -/

theorem hexDigitVal_hexDigitChar : ∀ d, d < 16 →
    hexDigitVal (hexDigitChar d) = some d := by
  decide

theorem bytes_to_hex_cons (b : Nat) (bs : List Nat) :
    bytes_to_hex (b :: bs) =
      hexDigitChar (b / 16) :: hexDigitChar (b % 16) :: bytes_to_hex bs := rfl

theorem hex_decode_bytes_to_hex : ∀ (bs : List Nat), (∀ b ∈ bs, b < 256) →
    hex_decode (bytes_to_hex bs) = some bs := by
  intro bs
  induction bs with
  | nil => intro _; rfl
  | cons b bs ih =>
    intro h
    have hb : b < 256 := h b (by simp)
    rw [bytes_to_hex_cons]
    have h1 : hexDigitVal (hexDigitChar (b / 16)) = some (b / 16) :=
      hexDigitVal_hexDigitChar _ (by omega)
    have h2 : hexDigitVal (hexDigitChar (b % 16)) = some (b % 16) :=
      hexDigitVal_hexDigitChar _ (by omega)
    have h3 : hex_decode (bytes_to_hex bs) = some bs :=
      ih (fun c hc => h c (by simp [hc]))
    simp only [hex_decode, h1, h2, h3]
    have : 16 * (b / 16) + b % 16 = b := by omega
    rw [this]

theorem hex_decode_length : ∀ (s bs : List Nat), hex_decode s = some bs →
    s.length = 2 * bs.length
  | [], bs => by
    intro h
    simp only [hex_decode, Option.some.injEq] at h
    subst h
    simp
  | [c], bs => by
    intro h
    simp [hex_decode] at h
  | c1 :: c2 :: rest, bs => by
    intro h
    simp only [hex_decode] at h
    rcases h1 : hexDigitVal c1 with _ | d1 <;> rw [h1] at h
    · simp at h
    rcases h2 : hexDigitVal c2 with _ | d2 <;> rw [h2] at h
    · simp at h
    rcases h3 : hex_decode rest with _ | tl <;> rw [h3] at h
    · simp at h
    simp only [Option.some.injEq] at h
    subst h
    have := hex_decode_length rest tl h3
    simp [this]
    omega

/-! ### Scalar-reduction helper lemmas -/

theorem sc_reduce32_length (bs : List Nat) : (sc_reduce32 bs).length = 32 := by
  simp [sc_reduce32, le_bytes_32]

theorem sc_reduce32_lt (bs : List Nat) : ∀ b ∈ sc_reduce32 bs, b < 256 := by
  intro b hb
  simp only [sc_reduce32, le_bytes_32, List.mem_map] at hb
  obtain ⟨i, _, rfl⟩ := hb
  exact Nat.mod_lt _ (by norm_num)

/-! ### Key-derivation helper lemmas -/

theorem derive_priv_keys_64 (keccak : List Nat → List Nat)
    (hk : ∀ bs, (keccak bs).length = 32) (s bs : List Nat)
    (h64 : s.length = 64) (hdec : hex_decode s = some bs) :
    derive_priv_keys keccak s =
      .ok [bytes_to_hex (sc_reduce32 bs),
           bytes_to_hex (sc_reduce32 (keccak (sc_reduce32 bs)))] := by
  have hlen : bs.length = 32 := by
    have := hex_decode_length s bs hdec
    omega
  have hrt : hex_decode (bytes_to_hex (sc_reduce32 bs)) =
      some (sc_reduce32 bs) :=
    hex_decode_bytes_to_hex _ (sc_reduce32_lt bs)
  simp only [derive_priv_keys, h64]
  norm_num
  simp only [derive_original_priv_keys, hdec, hlen, hrt, hk]
  norm_num

theorem derive_priv_keys_32 (keccak : List Nat → List Nat)
    (hk : ∀ bs, (keccak bs).length = 32) (s bs : List Nat)
    (h32 : s.length = 32) (hdec : hex_decode s = some bs) :
    derive_priv_keys keccak s =
      .ok [bytes_to_hex (sc_reduce32 (keccak bs)),
           bytes_to_hex (sc_reduce32 (keccak (keccak bs)))] := by
  simp only [derive_priv_keys, h32]
  norm_num
  simp only [derive_mymonero_priv_keys, hdec, hk]
  norm_num

theorem derive_priv_keys_other (keccak : List Nat → List Nat) (s : List Nat)
    (h32 : s.length ≠ 32) (h64 : s.length ≠ 64) :
    derive_priv_keys keccak s = .error .invalidHexSeed := by
  simp [derive_priv_keys, h32, h64]

theorem derive_priv_vk_spec (keccak : List Nat → List Nat)
    (hk : ∀ bs, (keccak bs).length = 32) (bs : List Nat)
    (hb : ∀ b ∈ bs, b < 256) :
    derive_priv_vk_from_priv_sk keccak (bytes_to_hex bs) =
      .ok (bytes_to_hex (sc_reduce32 (keccak bs))) := by
  simp only [derive_priv_vk_from_priv_sk, hex_decode_bytes_to_hex bs hb, hk]
  norm_num

/-! ### Claims C1, C5, C6 -/

/-- Claim C1: `derive_priv_keys` dispatches on the hex-seed length.  A
64-character seed takes the original path (spend = reduced seed bytes, view =
reduction of one Keccak256 of the spend-key bytes); a 32-character seed takes
the MyMonero path (spend = reduction of one hash of the seed bytes, view =
reduction of the hash applied twice); any other length fails. -/
theorem C1_derive_priv_keys_dispatch (keccak : List Nat → List Nat)
    (hk : ∀ bs, (keccak bs).length = 32) :
    (∀ s bs, s.length = 64 → hex_decode s = some bs →
      derive_priv_keys keccak s =
        .ok [bytes_to_hex (sc_reduce32 bs),
             bytes_to_hex (sc_reduce32 (keccak (sc_reduce32 bs)))]) ∧
    (∀ s bs, s.length = 32 → hex_decode s = some bs →
      derive_priv_keys keccak s =
        .ok [bytes_to_hex (sc_reduce32 (keccak bs)),
             bytes_to_hex (sc_reduce32 (keccak (keccak bs)))]) ∧
    (∀ s, s.length ≠ 32 → s.length ≠ 64 →
      derive_priv_keys keccak s = .error .invalidHexSeed) :=
  ⟨derive_priv_keys_64 keccak hk, derive_priv_keys_32 keccak hk,
   derive_priv_keys_other keccak⟩

/-- Concrete instance of claim C1's theorem: the all-`'0'` 64-character seed
with the demonstration hash. -/
theorem C1_derive_priv_keys_dispatch_witness :
    derive_priv_keys demo_keccak (List.replicate 64 48) =
      .ok [bytes_to_hex (sc_reduce32 (List.replicate 32 0)),
           bytes_to_hex (sc_reduce32 (demo_keccak (sc_reduce32 (List.replicate 32 0))))] :=
  (C1_derive_priv_keys_dispatch demo_keccak
      (fun _ => by simp [demo_keccak])).1
    (List.replicate 64 48) (List.replicate 32 0) (by simp) (by decide)

/-- Claim C5: for every valid 64-character (original-variant) hex seed, the
private view key returned by `derive_priv_keys` equals
`derive_priv_vk_from_priv_sk` applied to the returned private spend key. -/
theorem C5_view_key_equivalence (keccak : List Nat → List Nat)
    (hk : ∀ bs, (keccak bs).length = 32) (s bs : List Nat)
    (h64 : s.length = 64) (hdec : hex_decode s = some bs) :
    ∃ sk vk, derive_priv_keys keccak s = .ok [sk, vk] ∧
      derive_priv_vk_from_priv_sk keccak sk = .ok vk :=
  ⟨bytes_to_hex (sc_reduce32 bs),
   bytes_to_hex (sc_reduce32 (keccak (sc_reduce32 bs))),
   derive_priv_keys_64 keccak hk s bs h64 hdec,
   derive_priv_vk_spec keccak hk (sc_reduce32 bs) (sc_reduce32_lt bs)⟩

/-- Concrete instance of claim C5's theorem. -/
theorem C5_view_key_equivalence_witness :
    ∃ sk vk, derive_priv_keys demo_keccak (List.replicate 64 48) = .ok [sk, vk] ∧
      derive_priv_vk_from_priv_sk demo_keccak sk = .ok vk :=
  C5_view_key_equivalence demo_keccak (fun _ => by simp [demo_keccak])
    (List.replicate 64 48) (List.replicate 32 0) (by simp) (by decide)

/-- Claim C6: `derive_address` uses network byte `0x12` for network `0`
(mainnet) and `0x35` for network `1` (testnet), fails with the invalid-network
panic for every other network value, and otherwise base58-encodes
`network_byte ‖ public_spend ‖ public_view ‖ first-4-bytes-of-Keccak256`. -/
theorem C6_derive_address (keccak : List Nat → List Nat)
    (b58 : List Nat → List Nat) (hk : ∀ bs, (keccak bs).length = 32)
    (sk vk skb vkb : List Nat) (hs : hex_decode sk = some skb)
    (hv : hex_decode vk = some vkb) :
    derive_address keccak b58 sk vk 0 =
      .ok (b58 ((0x12 :: (skb ++ vkb)) ++
        (keccak (0x12 :: (skb ++ vkb))).take 4)) ∧
    derive_address keccak b58 sk vk 1 =
      .ok (b58 ((0x35 :: (skb ++ vkb)) ++
        (keccak (0x35 :: (skb ++ vkb))).take 4)) ∧
    (∀ n, 2 ≤ n → derive_address keccak b58 sk vk n = .error .invalidNetwork) := by
  refine ⟨?_, ?_, ?_⟩
  · simp only [derive_address, hs, hv, hk]
    norm_num
  · simp only [derive_address, hs, hv, hk]
    norm_num
  · intro n hn
    match n, hn with
    | n + 2, _ => rfl

/-- Concrete instance of claim C6's theorem at empty public keys. -/
theorem C6_derive_address_witness :
    derive_address demo_keccak demo_b58 [] [] 0 =
      .ok (demo_b58 ((0x12 :: (([] : List Nat) ++ ([] : List Nat))) ++
        (demo_keccak (0x12 :: (([] : List Nat) ++ ([] : List Nat)))).take 4)) ∧
    derive_address demo_keccak demo_b58 [] [] 1 =
      .ok (demo_b58 ((0x35 :: (([] : List Nat) ++ ([] : List Nat))) ++
        (demo_keccak (0x35 :: (([] : List Nat) ++ ([] : List Nat)))).take 4)) ∧
    (∀ n, 2 ≤ n → derive_address demo_keccak demo_b58 [] [] n =
      .error .invalidNetwork) :=
  C6_derive_address demo_keccak demo_b58 (fun _ => by simp [demo_keccak])
    [] [] [] [] rfl rfl

/-! ### Codec helper lemmas -/

theorem triplet_val_mod (L w1 w2 w3 : Nat) (h : w1 < L) :
    triplet_val L w1 w2 w3 % L = w1 := by
  unfold triplet_val
  have e : w1 + L * ((L - w1 + w2) % L) + L * L * ((L - w2 + w3) % L) =
      w1 + ((L - w1 + w2) % L + L * ((L - w2 + w3) % L)) * L := by ring
  rw [e, Nat.add_mul_mod_self_right, Nat.mod_eq_of_lt h]

theorem findIdx?_lt_length {α : Type} (p : α → Bool) (l : List α) (i : Nat)
    (h : l.findIdx? p = some i) : i < l.length :=
  (List.findIdx?_eq_some_iff_findIdx_eq.mp h).1

theorem word_index_lt (ws : Wordset) (tw : List (List Nat)) (w : List Nat)
    (i : Nat) (hlen : tw.length = ws.words.length)
    (h : word_index ws tw w = some i) : i < ws.words.length := by
  unfold word_index at h
  split at h
  · exact findIdx?_lt_length _ _ _ h
  · rw [← hlen]
    exact findIdx?_lt_length _ _ _ h

theorem derive_triplets_ne_cc (ws : Wordset) (tw : List (List Nat))
    (hlen : tw.length = ws.words.length) :
    ∀ l, derive_triplets ws tw l ≠ .error .codecConsistency
  | [] => by simp [derive_triplets]
  | [_] => by simp [derive_triplets]
  | [_, _] => by simp [derive_triplets]
  | w1 :: w2 :: w3 :: rest => by
    have IH := derive_triplets_ne_cc ws tw hlen rest
    intro heq
    simp only [derive_triplets] at heq
    split at heq
    · rename_i i1 i2 i3 h1 h2 h3
      have hi1 : i1 < ws.words.length := word_index_lt ws tw w1 i1 hlen h1
      split at heq
      · rename_i hcond
        exact hcond (triplet_val_mod _ _ _ _ hi1)
      · split at heq
        · exact Except.noConfusion heq
        · rename_i e' hrec
          have he : e' = KeyError.codecConsistency := Except.error.inj heq
          exact IH (he ▸ hrec)
    · exact KeyError.noConfusion (Except.error.inj heq)

theorem derive_triplets_error_cases (ws : Wordset) (tw : List (List Nat)) :
    ∀ l e, derive_triplets ws tw l = .error e →
      e = .unknownWord ∨ e = .indexOutOfBounds ∨ e = .codecConsistency
  | [] => by simp [derive_triplets]
  | [_] => by
    intro e h
    exact Or.inr (Or.inl (Except.error.inj h).symm)
  | [_, _] => by
    intro e h
    exact Or.inr (Or.inl (Except.error.inj h).symm)
  | w1 :: w2 :: w3 :: rest => by
    intro e h
    simp only [derive_triplets] at h
    split at h
    · split at h
      · exact Or.inr (Or.inr (Except.error.inj h).symm)
      · split at h
        · exact Except.noConfusion h
        · rename_i e' hrec
          have he : e' = e := Except.error.inj h
          exact he ▸ derive_triplets_error_cases ws tw rest e' hrec
    · exact Or.inl (Except.error.inj h).symm

theorem format_08x_length_ge (x : Nat) : 8 ≤ (format_08x x).length := by
  simp only [format_08x, List.length_append, List.length_replicate]
  omega

theorem swap_endian_4_byte_length (s : List Nat) (h : 8 ≤ s.length) :
    (swap_endian_4_byte s).length = 8 := by
  simp only [swap_endian_4_byte, List.length_append, List.length_take,
    List.length_drop]
  omega

theorem derive_triplets_ok_length (ws : Wordset) (tw : List (List Nat)) :
    ∀ l s, derive_triplets ws tw l = .ok s →
      s.length = 8 * (l.length / 3) ∧ l.length % 3 = 0
  | [] => by
    intro s h
    have hs : s = [] := (Except.ok.inj h).symm
    subst hs
    simp
  | [_] => by intro s h; exact Except.noConfusion h
  | [_, _] => by intro s h; exact Except.noConfusion h
  | w1 :: w2 :: w3 :: rest => by
    intro s h
    simp only [derive_triplets] at h
    split at h
    · rename_i i1 i2 i3 h1 h2 h3
      split at h
      · exact Except.noConfusion h
      · split at h
        · rename_i tl hrec
          have hs := (Except.ok.inj h).symm
          subst hs
          obtain ⟨hl, hm⟩ := derive_triplets_ok_length ws tw rest tl hrec
          have hchunk : (swap_endian_4_byte
              (format_08x (triplet_val ws.words.length i1 i2 i3))).length = 8 :=
            swap_endian_4_byte_length _ (format_08x_length_ge _)
          constructor
          · simp only [List.length_append, List.length_cons, hchunk, hl]
            have h3div : (rest.length + 1 + 1 + 1) / 3 = rest.length / 3 + 1 := by
              omega
            rw [h3div]
            ring
          · simp only [List.length_cons]
            omega
        · exact Except.noConfusion h
    · exact Except.noConfusion h

/-- The newer `derive_hex_seed` with its local `let` bindings expanded; holds
definitionally. -/
theorem derive_hex_seed_eq (reg : List Wordset) (mn : List (List Nat)) :
    derive_hex_seed reg mn =
      if (find_wordset reg mn).name = str ['x'] then .error .wordsetNotFound
      else if ((find_wordset reg mn).words.map
          (fun w => w.take (find_wordset reg mn).prefix_len)).isEmpty then
        .error .emptyTruncWords
      else
        derive_triplets (find_wordset reg mn)
          ((find_wordset reg mn).words.map
            (fun w => w.take (find_wordset reg mn).prefix_len))
          (if 0 < (find_wordset reg mn).prefix_len then mn.dropLast else mn) :=
  rfl

/-! ### Claim C7 -/

/-- Claim C7: for every triplet of indices below the wordset length, the
decoded value satisfies `x % L = w1`, and consequently the `CodecConsistency`
panic of the newer `derive_hex_seed` is unreachable, whatever the registry and
mnemonic. -/
theorem C7_consistency_unreachable :
    (∀ L w1 w2 w3, w1 < L → triplet_val L w1 w2 w3 % L = w1) ∧
    (∀ reg mn, derive_hex_seed reg mn ≠ .error .codecConsistency) := by
  constructor
  · exact fun L w1 w2 w3 h => triplet_val_mod L w1 w2 w3 h
  · intro reg mn
    rw [derive_hex_seed_eq]
    split
    · simp
    · split
      · simp
      · exact derive_triplets_ne_cc _ _ (by simp) _

/-- Concrete instance of claim C7's theorem at `L = 1626`,
`(w1, w2, w3) = (1625, 1624, 1623)` and the demonstration decoder run. -/
theorem C7_consistency_unreachable_witness :
    (1625 : Nat) < 1626 ∧ triplet_val 1626 1625 1624 1623 % 1626 = 1625 ∧
    derive_hex_seed demo_registry tampered_mnemonic ≠
      .error .codecConsistency :=
  ⟨by decide, C7_consistency_unreachable.1 1626 1625 1624 1623 (by decide),
   C7_consistency_unreachable.2 demo_registry tampered_mnemonic⟩

/-! ### Claim C2 -/

/-- The older revision's `derive_hex_seed` really does enforce the checksum:
whenever it succeeds on a `prefix_len > 0` wordset, the data word at the
recomputed CRC32 checksum index agrees with the removed trailing word on the
first `prefix_len` bytes. -/
theorem derive_hex_seed_old_checksum_sound (reg : List Wordset)
    (mn : List (List Nat)) (hx : List Nat)
    (hp : 0 < (find_wordset_old reg mn).prefix_len)
    (h : derive_hex_seed_old reg mn = .ok hx) :
    (mn.dropLast.getD (get_checksum_index mn.dropLast
        (find_wordset_old reg mn).prefix_len) []).take
        (find_wordset_old reg mn).prefix_len =
      (mn.getLastD []).take (find_wordset_old reg mn).prefix_len := by
  simp only [derive_hex_seed_old, hp, if_true] at h
  split at h
  · exact Except.noConfusion h
  · split at h
    · exact Except.noConfusion h
    · split at h
      · exact Except.noConfusion h
      · split at h
        · exact Except.noConfusion h
        · split at h
          · exact Except.noConfusion h
          · rename_i hcond
            exact not_ne_iff.mp hcond

set_option maxRecDepth 10000 in
/-- Claim C2 (bug exhibit): on `tampered_mnemonic` — whose trailing checksum
word is wrong — the newer `derive_hex_seed` pops the word without any
verification and succeeds, while the older revision rejects it with the
checksum-mismatch failure that the claim (and §4.3/§8 of the design) demand. -/
theorem C2_checksum_bug :
    derive_hex_seed demo_registry tampered_mnemonic =
      .ok (str ['1', '4', '0', '0', '0', '0', '0', '0']) ∧
    derive_hex_seed_old demo_registry tampered_mnemonic =
      .error .checksumMismatch :=
  ⟨by decide, by decide⟩

/-! ### Claim C4 -/

set_option maxRecDepth 10000 in
/-- Claim C4 (counterexample): `truncated_mnemonic` consists of the truncated
forms of `demo_wordset`'s words, so the claimed prefix-based resolution
matches `demo_wordset` (witnessed by the specification-side matcher), yet the
newer `derive_hex_seed` — which matches full words only, whatever
`prefix_len` — fails with the wordset-not-found panic. -/
theorem C4_counterexample :
    find_wordset_spec demo_registry truncated_mnemonic = some demo_wordset ∧
    derive_hex_seed demo_registry truncated_mnemonic =
      .error .wordsetNotFound :=
  ⟨by decide, by decide⟩

/-- Claim C4 (amended): resolution in the newer `derive_hex_seed` requires
every mnemonic word to occur *verbatim* in a single wordset, ignoring
`prefix_len`; provided no registry wordset carries the placeholder name, the
decoder fails with the wordset-not-found panic exactly when every wordset
misses at least one mnemonic word. -/
theorem C4_amended (reg : List Wordset) (mn : List (List Nat))
    (hn : ∀ ws ∈ reg, ws.name ≠ str ['x']) :
    derive_hex_seed reg mn = .error .wordsetNotFound ↔
      ∀ ws ∈ reg, ∃ w ∈ mn, w ∉ ws.words := by
  rcases hf : reg.find? (fun ws => mn.all (fun w => ws.words.contains w))
    with _ | ws
  · have hfw : find_wordset reg mn = dummy_wordset := by
      unfold find_wordset
      rw [hf]
    apply iff_of_true
    · rw [derive_hex_seed_eq, hfw,
        if_pos (show dummy_wordset.name = str ['x'] from rfl)]
    · intro ws hws
      have hnall := List.find?_eq_none.mp hf ws hws
      simpa using hnall
  · have hws_mem : ws ∈ reg := List.mem_of_find?_eq_some hf
    have hall : ∀ w ∈ mn, w ∈ ws.words := by
      have hpred := List.find?_some hf
      simpa using hpred
    have hfw : find_wordset reg mn = ws := by
      unfold find_wordset
      rw [hf]
    apply iff_of_false
    · rw [derive_hex_seed_eq, hfw, if_neg (hn ws hws_mem)]
      split
      · simp
      · intro heq
        rcases derive_triplets_error_cases _ _ _ _ heq with h | h | h <;>
          exact KeyError.noConfusion h
    · intro hr
      obtain ⟨w, hw, hnw⟩ := hr ws hws_mem
      exact hnw (hall w hw)

/-- Concrete instance of claim C4's amended theorem on the demonstration
registry. -/
theorem C4_amended_witness :
    derive_hex_seed demo_registry truncated_mnemonic =
        .error .wordsetNotFound ↔
      ∀ ws ∈ demo_registry, ∃ w ∈ truncated_mnemonic, w ∉ ws.words :=
  C4_amended demo_registry truncated_mnemonic (by decide)

/-! ### Claim C10 -/

/-- Claim C10: every hex seed the newer `derive_hex_seed` accepts has exactly
`8 * (d / 3)` characters, where `d` is the data-word count after the checksum
word is removed (`length - 1` when the resolved wordset has
`prefix_len > 0`), and acceptance forces `d` to be a multiple of 3; each
triplet contributes exactly 8 characters no matter how large its value is. -/
theorem C10_hex_seed_length (reg : List Wordset) (mn : List (List Nat))
    (s : List Nat) (h : derive_hex_seed reg mn = .ok s) :
    s.length = 8 * ((if 0 < (find_wordset reg mn).prefix_len
        then mn.length - 1 else mn.length) / 3) ∧
    (if 0 < (find_wordset reg mn).prefix_len
        then mn.length - 1 else mn.length) % 3 = 0 := by
  rw [derive_hex_seed_eq] at h
  split at h
  · exact Except.noConfusion h
  · split at h
    · exact Except.noConfusion h
    · obtain ⟨hl, hm⟩ := derive_triplets_ok_length _ _ _ _ h
      by_cases hp : 0 < (find_wordset reg mn).prefix_len
      · simp only [hp, if_true] at hl hm ⊢
        rw [List.length_dropLast] at hl hm
        exact ⟨hl, hm⟩
      · simp only [hp, if_false] at hl hm ⊢
        exact ⟨hl, hm⟩

set_option maxRecDepth 10000 in
/-- Concrete instance of claim C10's theorem: the accepted 4-word
demonstration mnemonic (3 data words) yields exactly 8 characters. -/
theorem C10_hex_seed_length_witness :
    (str ['1', '4', '0', '0', '0', '0', '0', '0']).length =
      8 * ((if 0 < (find_wordset demo_registry tampered_mnemonic).prefix_len
        then tampered_mnemonic.length - 1 else tampered_mnemonic.length) / 3) ∧
    (if 0 < (find_wordset demo_registry tampered_mnemonic).prefix_len
        then tampered_mnemonic.length - 1 else tampered_mnemonic.length) % 3
      = 0 :=
  C10_hex_seed_length demo_registry tampered_mnemonic
    (str ['1', '4', '0', '0', '0', '0', '0', '0']) (by decide)

/-! ### Hex-rendering helper lemmas -/

theorem toHexCore_zero (f : Nat) : toHexCore f 0 = [] := by
  cases f <;> simp [toHexCore]

theorem hexDigitsFix_zero (k : Nat) : hexDigitsFix k 0 = List.replicate k 48 := by
  induction k with
  | zero => rfl
  | succ k ih =>
    show hexDigitsFix k (0 / 16) ++ [hexDigitChar (0 % 16)] = _
    norm_num [ih, hexDigitChar]
    exact (List.replicate_succ' k 48).symm

theorem pad_toHexCore : ∀ (k f x : Nat), x < 16 ^ k → k ≤ f →
    List.replicate (k - (toHexCore f x).length) 48 ++ toHexCore f x =
      hexDigitsFix k x
  | 0, f, x => by
    intro hx _
    have hx0 : x = 0 := by simpa using hx
    subst hx0
    rw [toHexCore_zero]
    rfl
  | k + 1, f, x => by
    intro hx hf
    by_cases hx0 : x = 0
    · subst hx0
      rw [toHexCore_zero, hexDigitsFix_zero]
      simp
    · match f, hf with
      | f' + 1, hf =>
        have hrec : toHexCore (f' + 1) x =
            toHexCore f' (x / 16) ++ [hexDigitChar (x % 16)] := by
          simp [toHexCore, hx0]
        rw [hrec]
        rw [List.length_append, List.length_singleton]
        have e1 : k + 1 - ((toHexCore f' (x / 16)).length + 1) =
            k - (toHexCore f' (x / 16)).length := by omega
        rw [e1, ← List.append_assoc]
        have hdiv : x / 16 < 16 ^ k := by
          rw [Nat.div_lt_iff_lt_mul (by norm_num)]
          calc x < 16 ^ (k + 1) := hx
            _ = 16 ^ k * 16 := by ring
        rw [pad_toHexCore k f' (x / 16) hdiv (by omega)]
        rfl

theorem format_08x_eq_fix (x : Nat) (h : x < 2 ^ 32) :
    format_08x x = hexDigitsFix 8 x := by
  have h16 : x < 16 ^ 8 := by
    have e : (16 : Nat) ^ 8 = 2 ^ 32 := by norm_num
    omega
  exact pad_toHexCore 8 16 x h16 (by norm_num)

theorem swap_endian_4_byte_take8 (s : List Nat) :
    swap_endian_4_byte (s.take 8) = swap_endian_4_byte s := by
  have h6 : (s.take 8).drop 6 = (s.drop 6).take 2 := by
    simpa using (List.take_drop 6 2 s).symm
  have h4 : (s.take 8).drop 4 = (s.drop 4).take 4 := by
    simpa using (List.take_drop 4 4 s).symm
  have h2 : (s.take 8).drop 2 = (s.drop 2).take 6 := by
    simpa using (List.take_drop 2 6 s).symm
  unfold swap_endian_4_byte
  rw [h6, h4, h2]
  simp [List.take_take]

theorem swap_format_08x_le (x : Nat) (h : x < 2 ^ 32) :
    swap_endian_4_byte (format_08x x) =
      bytes_to_hex [x % 256, x / 256 % 256, x / 65536 % 256,
        x / 16777216 % 256] := by
  rw [format_08x_eq_fix x h]
  have e1 : hexDigitsFix 8 x =
      [hexDigitChar (x / 16 / 16 / 16 / 16 / 16 / 16 / 16 % 16),
       hexDigitChar (x / 16 / 16 / 16 / 16 / 16 / 16 % 16),
       hexDigitChar (x / 16 / 16 / 16 / 16 / 16 % 16),
       hexDigitChar (x / 16 / 16 / 16 / 16 % 16),
       hexDigitChar (x / 16 / 16 / 16 % 16),
       hexDigitChar (x / 16 / 16 % 16),
       hexDigitChar (x / 16 % 16),
       hexDigitChar (x % 16)] := rfl
  rw [e1]
  show [hexDigitChar (x / 16 % 16), hexDigitChar (x % 16),
    hexDigitChar (x / 16 / 16 / 16 % 16), hexDigitChar (x / 16 / 16 % 16),
    hexDigitChar (x / 16 / 16 / 16 / 16 / 16 % 16),
    hexDigitChar (x / 16 / 16 / 16 / 16 % 16),
    hexDigitChar (x / 16 / 16 / 16 / 16 / 16 / 16 / 16 % 16),
    hexDigitChar (x / 16 / 16 / 16 / 16 / 16 / 16 % 16)] =
    [hexDigitChar (x % 256 / 16), hexDigitChar (x % 256 % 16),
     hexDigitChar (x / 256 % 256 / 16), hexDigitChar (x / 256 % 256 % 16),
     hexDigitChar (x / 65536 % 256 / 16), hexDigitChar (x / 65536 % 256 % 16),
     hexDigitChar (x / 16777216 % 256 / 16),
     hexDigitChar (x / 16777216 % 256 % 16)]
  have g1 : x % 256 / 16 = x / 16 % 16 := by omega
  have g2 : x % 256 % 16 = x % 16 := by omega
  have g3 : x / 256 % 256 / 16 = x / 16 / 16 / 16 % 16 := by omega
  have g4 : x / 256 % 256 % 16 = x / 16 / 16 % 16 := by omega
  have g5 : x / 65536 % 256 / 16 = x / 16 / 16 / 16 / 16 / 16 % 16 := by omega
  have g6 : x / 65536 % 256 % 16 = x / 16 / 16 / 16 / 16 % 16 := by omega
  have g7 : x / 16777216 % 256 / 16 =
      x / 16 / 16 / 16 / 16 / 16 / 16 / 16 % 16 := by omega
  have g8 : x / 16777216 % 256 % 16 =
      x / 16 / 16 / 16 / 16 / 16 / 16 % 16 := by omega
  rw [g1, g2, g3, g4, g5, g6, g7, g8]

theorem triplet_val_lt (L w1 w2 w3 : Nat) (h1 : w1 < L) (h2 : w2 < L)
    (_h3 : w3 < L) : triplet_val L w1 w2 w3 < L * L * L := by
  have hL : 0 < L := by omega
  have haL : (L - w1 + w2) % L < L := Nat.mod_lt _ hL
  have hbL : (L - w2 + w3) % L < L := Nat.mod_lt _ hL
  unfold triplet_val
  calc w1 + L * ((L - w1 + w2) % L) + L * L * ((L - w2 + w3) % L)
      < L + L * ((L - w1 + w2) % L) + L * L * ((L - w2 + w3) % L) := by
        apply Nat.add_lt_add_right
        exact Nat.add_lt_add_right h1 _
    _ = L * (1 + (L - w1 + w2) % L + L * ((L - w2 + w3) % L)) := by ring
    _ ≤ L * (L * L) := by
        apply Nat.mul_le_mul_left
        calc 1 + (L - w1 + w2) % L + L * ((L - w2 + w3) % L)
            ≤ L + L * ((L - w2 + w3) % L) :=
              Nat.add_le_add_right (by omega) _
          _ = L * (1 + (L - w2 + w3) % L) := by ring
          _ ≤ L * L := Nat.mul_le_mul_left L (by omega)
    _ = L * L * L := by ring

/-! ### Claim C3 -/

set_option maxRecDepth 10000 in
/-- Claim C3 (counterexample): at the real wordset length `L = 1626`, the
data-word triplet with indices `(1625, 1624, 1623)` passes the consistency
check (`x % L = w1`) yet its value `x = 4298942375` does not fit in 8 hex
digits (`x ≥ 2^32`); a full decoder run over a 1626-word wordset accepts the
triplet and silently appends only 8 of the 9 hex digits. -/
theorem C3_counterexample :
    (1625 < 1626 ∧ 1624 < 1626 ∧ 1623 < 1626) ∧
    triplet_val 1626 1625 1624 1623 = 4298942375 ∧
    triplet_val 1626 1625 1624 1623 % 1626 = 1625 ∧
    ¬ triplet_val 1626 1625 1624 1623 < 2 ^ 32 ∧
    derive_hex_seed [big_wordset] big_mnemonic =
      .ok (str ['7', 'a', 'c', 'a', '0', '3', '1', '0']) :=
  ⟨by decide, by decide, by decide, by decide, by decide⟩

/-- Claim C3 (amended): the decoded triplet value is bounded by `L^3` (which
exceeds `2^32` for `L = 1626`, so it need not fit in 8 hex digits); the
appended chunk is always exactly 8 characters and depends only on the first
8 characters of the `{:08x}` rendering; and whenever `x < 2^32` the chunk is
precisely the little-endian 4-byte order of `x`'s 8-hex-digit big-endian
rendering. -/
theorem C3_amended :
    (∀ L w1 w2 w3, w1 < L → w2 < L → w3 < L →
      triplet_val L w1 w2 w3 < L * L * L) ∧
    (∀ x : Nat, (swap_endian_4_byte (format_08x x)).length = 8 ∧
      swap_endian_4_byte (format_08x x) =
        swap_endian_4_byte ((format_08x x).take 8)) ∧
    (∀ x : Nat, x < 2 ^ 32 → swap_endian_4_byte (format_08x x) =
      bytes_to_hex [x % 256, x / 256 % 256, x / 65536 % 256,
        x / 16777216 % 256]) :=
  ⟨triplet_val_lt,
   fun x => ⟨swap_endian_4_byte_length _ (format_08x_length_ge x),
     (swap_endian_4_byte_take8 (format_08x x)).symm⟩,
   swap_format_08x_le⟩

/-- Concrete instance of claim C3's amended theorem at `L = 1626` and at
`x = 20`. -/
theorem C3_amended_witness :
    triplet_val 1626 1625 1624 1623 < 1626 * 1626 * 1626 ∧
    swap_endian_4_byte (format_08x 20) =
      bytes_to_hex [20 % 256, 20 / 256 % 256, 20 / 65536 % 256,
        20 / 16777216 % 256] :=
  ⟨C3_amended.1 1626 1625 1624 1623 (by decide) (by decide) (by decide),
   C3_amended.2.2 20 (by decide)⟩
